import Mathlib

/-
Verification development for the issue-verification engine
(`tools/verify_issue.py`): a shallow embedding of the command corrector,
command classifier, pattern resolver, dependency gate, aggregation and
status-update logic, together with theorems settling the specification
claims.  Python strings are modelled as `List Char` (ASCII commands);
regular-expression searches and substitutions are modelled by bespoke
scanners that mirror the greedy/backtracking semantics of the concrete
patterns used by the source.  Shell execution, wall-clock durations and
the filesystem are modelled as oracle parameters.
-/

namespace VerifyIssue

/-- ASCII whitespace: the characters matched by the regex class `\s`
on the ASCII command text handled by the tool. -/
def isWs (c : Char) : Bool :=
  c = ' ' || c = '\t' || c = '\n' || c = '\r' || c = '\x0b' || c = '\x0c'

/-- Negation of `isWs`: the regex class `\S`. -/
def nonWs (c : Char) : Bool := !(isWs c)

/-- Python `needle in hay` (substring containment). -/
def containsSeq (hay needle : List Char) : Bool :=
  needle.isPrefixOf hay ||
    match hay with
    | [] => false
    | _ :: t => containsSeq t needle

/-- Auxiliary for `pyFind`: least absolute index `≥ i` at which `needle`
occurs in `hay` (where `hay` is the suffix of the original string that
starts at index `i`). -/
def findFromAux (hay needle : List Char) (i : Nat) : Option Nat :=
  if needle.isPrefixOf hay then some i
  else match hay with
    | [] => none
    | _ :: t => findFromAux t needle (i + 1)

/-- Python `str.find(needle, start)`; `none` models the return value `-1`. -/
def pyFind (hay needle : List Char) (start : Nat) : Option Nat :=
  findFromAux (hay.drop start) needle start

/-- Match a literal word at the front of the input, returning the rest. -/
def litPrefix (word l : List Char) : Option (List Char) :=
  if word.isPrefixOf l then some (l.drop word.length) else none

/-- The regex piece `\s+` at the front of the input: requires at least one
whitespace character and consumes the maximal whitespace run. -/
def wsPlus (l : List Char) : Option (List Char) :=
  match l with
  | c :: cs => if isWs c then some (cs.dropWhile isWs) else none
  | [] => none

/-- The regex piece `test\s+-X\s+` where `X` is drawn from `flags`:
returns the matched flag character and the input remaining after the
(maximal) second whitespace run. -/
def testFlagPrefix (flags : List Char) (l : List Char) : Option (Char × List Char) :=
  match litPrefix "test".data l with
  | some r =>
    match wsPlus r with
    | some r1 =>
      match r1 with
      | '-' :: f :: r2 =>
        if flags.contains f then
          match wsPlus r2 with
          | some r3 => some (f, r3)
          | none => none
        else none
      | _ => none
    | none => none
  | none => none

/-- Does `p` hold at some start position of the input (the boolean content
of `re.search`)? -/
def searchAnyB (p : List Char → Bool) : List Char → Bool
  | [] => p []
  | c :: cs => p (c :: cs) || searchAnyB p cs

/-- First (leftmost) position where the positional matcher succeeds,
returning its value: the match object of `re.search`. -/
def firstSome {α : Type} (tryM : List Char → Option α) : List Char → Option α
  | [] => tryM []
  | c :: cs =>
    match tryM (c :: cs) with
    | some a => some a
    | none => firstSome tryM cs

/-- Generic `re.sub` (all occurrences): scan left to right; on a match,
emit the replacement for the match value and resume after the matched
text; otherwise keep one character and continue.  `fuel` bounds the
recursion and is instantiated with the input length (every pattern the
source substitutes consumes at least one character). -/
def subAllGo {α : Type} (tryM : List Char → Option (α × List Char))
    (rep : α → List Char) : Nat → List Char → List Char
  | 0, l => l
  | _ + 1, [] => []
  | fuel + 1, c :: cs =>
    match tryM (c :: cs) with
    | some (m, rest) => rep m ++ subAllGo tryM rep fuel rest
    | none => c :: subAllGo tryM rep fuel cs

def subAll {α : Type} (tryM : List Char → Option (α × List Char))
    (rep : α → List Char) (l : List Char) : List Char :=
  subAllGo tryM rep l.length l

-- ===========================================================================
-- Corrector pattern 1: `test\s+-f\s+(\S+/)\s*&&` (search) and
-- `test\s+-f\s+(\S+/)` → `test -d \1` (substitution).
-- ===========================================================================

/-- Split a list at its last `'/'`, the slash going with the left part.
Models the greedy backtracking of `\S+/`: the group extends to the last
slash of the nonspace run. -/
def lastSlashSplitAux : List Char → Option (List Char × List Char)
  | [] => none
  | c :: cs =>
    match lastSlashSplitAux cs with
    | some (g, r) => some (c :: g, r)
    | none => if c = '/' then some ([c], cs) else none

/-- The piece `\S+/` over a nonspace run: at least one character before the last
slash (the slash may not be the first character of the run). -/
def lastSlashSplit : List Char → Option (List Char × List Char)
  | [] => none
  | c :: cs => (lastSlashSplitAux cs).map (fun p => (c :: p.1, p.2))

/-- A match of the substitution pattern `test\s+-f\s+(\S+/)` at the start
of the input, decomposed into the two whitespace runs, the captured group
and the remaining input. -/
structure P1Match where
  ws1 : List Char
  ws2 : List Char
  grp : List Char
  rest : List Char

/-- The shared head of pattern 1: `test\s+-f\s+` at the start of the
input, decomposed into the two whitespace runs, the nonspace run after
them and the remaining input. -/
def p1Head (l : List Char) :
    Option (List Char × List Char × List Char × List Char) :=
  match l with
  | 't' :: 'e' :: 's' :: 't' :: r =>
    if (r.takeWhile isWs).isEmpty then none else
    match r.dropWhile isWs with
    | '-' :: 'f' :: r2 =>
      if (r2.takeWhile isWs).isEmpty then none else
      some (r.takeWhile isWs, r2.takeWhile isWs,
            (r2.dropWhile isWs).takeWhile nonWs,
            (r2.dropWhile isWs).dropWhile nonWs)
    | _ => none
  | _ => none

def tryP1Sub (l : List Char) : Option P1Match :=
  match p1Head l with
  | some (ws1, ws2, run, tail) =>
    match lastSlashSplit run with
    | some (g, a) => some ⟨ws1, ws2, g, a ++ tail⟩
    | none => none
  | none => none

/-- The regex piece `\s*&&` at the start of the input. -/
def ampTail (l : List Char) : Bool :=
  match l.dropWhile isWs with
  | '&' :: '&' :: _ => true
  | _ => false

/-- Scan the tail of a nonspace run for a slash position (index `≥ 1` in
the run) after which `\s*&&` matches. -/
def slashAmpScan : List Char → List Char → Bool
  | [], _ => false
  | c :: cs, tail => (c = '/' && ampTail (cs ++ tail)) || slashAmpScan cs tail

/-- The search pattern `test\s+-f\s+(\S+/)\s*&&` at one start position. -/
def p1AtPos (l : List Char) : Bool :=
  match p1Head l with
  | some (_, _, run, tail) =>
    match run with
    | [] => false
    | _ :: cs => slashAmpScan cs tail
  | none => false

/-- The search `re.search(r'test\s+-f\s+(\S+/)\s*&&', l)` as a boolean. -/
def searchP1 : List Char → Bool
  | [] => false
  | c :: cs => p1AtPos (c :: cs) || searchP1 cs

/-- The substitution `re.sub(r'test\s+-f\s+(\S+/)', r'test -d \1', l)`. -/
def subP1Go : Nat → List Char → List Char
  | 0, l => l
  | _ + 1, [] => []
  | fuel + 1, c :: cs =>
    match tryP1Sub (c :: cs) with
    | some m => "test -d ".data ++ m.grp ++ subP1Go fuel m.rest
    | none => c :: subP1Go fuel cs

def subP1 (l : List Char) : List Char := subP1Go l.length l

-- ===========================================================================
-- Corrector pattern 2: wildcard in a test command.
--   search/sub pattern: `test\s+-[fdse]\s+(\S*\*\S*)\s*&&\s*echo\s+"?PASS"?`
--   replacement: `ls {path} >/dev/null 2>&1 && echo "PASS"` where `path` is
--   group 1 of the first search match.
-- ===========================================================================

/-- The splits `(take k, drop k)` of a run, longest prefix first: the
order in which a greedy `\S*` hands characters back while backtracking. -/
def splitsDesc (run : List Char) : List (List Char × List Char) :=
  ((List.range (run.length + 1)).reverse).map (fun k => (run.take k, run.drop k))

/-- The regex tail `\s*&&\s*echo\s+"?PASS"?` at the start of the input,
returning the input remaining after the match (the trailing `"?` is
greedy). -/
def echoPassEnd (l : List Char) : Option (List Char) :=
  match l.dropWhile isWs with
  | '&' :: '&' :: r =>
    match r.dropWhile isWs with
    | 'e' :: 'c' :: 'h' :: 'o' :: r2 =>
      match wsPlus r2 with
      | some r3 =>
        match r3 with
        | '"' :: 'P' :: 'A' :: 'S' :: 'S' :: '"' :: rest => some rest
        | '"' :: 'P' :: 'A' :: 'S' :: 'S' :: rest => some rest
        | 'P' :: 'A' :: 'S' :: 'S' :: '"' :: rest => some rest
        | 'P' :: 'A' :: 'S' :: 'S' :: rest => some rest
        | _ => none
      | none => none
    | _ => none
  | _ => none

/-- Pattern 2 at one start position: returns the captured wildcard path
and the input remaining after the whole match.  The group is the longest
prefix of the nonspace run that contains a `*` and after which the
`\s*&&\s*echo\s+"?PASS"?` tail matches. -/
def p2AtPos (l : List Char) : Option (List Char × List Char) :=
  match testFlagPrefix ['f', 'd', 's', 'e'] l with
  | some (_, r3) =>
    let run := r3.takeWhile nonWs
    let tail := r3.dropWhile nonWs
    (splitsDesc run).findSome? (fun p =>
      if p.1.contains '*' then
        match echoPassEnd (p.2 ++ tail) with
        | some rest => some (p.1, rest)
        | none => none
      else none)
  | none => none

/-- The replacement string `ls {path} >/dev/null 2>&1 && echo "PASS"`. -/
def lsRedirect (path : List Char) : List Char :=
  "ls ".data ++ path ++ " >/dev/null 2>&1 && echo \"PASS\"".data

-- ===========================================================================
-- Corrector pattern 2b: wildcard in `git ls-files`.
--   search: `git\s+ls-files\s+--error-unmatch\s+(\S*\*\S*)`
--   sub:    search pattern + `.*&&\s*echo\s+"?PASS"?`, same replacement.
-- ===========================================================================

/-- The regex prefix `git\s+ls-files\s+--error-unmatch\s+`. -/
def gitLsPrefix (l : List Char) : Option (List Char) :=
  match litPrefix "git".data l with
  | some r =>
    match wsPlus r with
    | some r1 =>
      match litPrefix "ls-files".data r1 with
      | some r2 =>
        match wsPlus r2 with
        | some r3 =>
          match litPrefix "--error-unmatch".data r3 with
          | some r4 => wsPlus r4
          | none => none
        | none => none
      | none => none
    | none => none
  | none => none

/-- Pattern 2b search at one position: group 1 is the whole nonspace run
(greedy `\S*\*\S*` with nothing after it), which must contain a `*`. -/
def p2bAtPos (l : List Char) : Option (List Char) :=
  match gitLsPrefix l with
  | some r3 =>
    let run := r3.takeWhile nonWs
    if run.contains '*' then some run else none
  | none => none

/-- The regex tail `.*&&\s*echo\s+"?PASS"?` at the start of the input:
`.*` is greedy and does not cross a newline, so the `&&` of the match is
the last one (before any newline) after which the echo tail matches.
Returns the input remaining after the whole match. -/
def dotStarEchoEnd (l : List Char) : Option (List Char) :=
  let line := l.takeWhile (fun c => c ≠ '\n')
  let lineTail := l.dropWhile (fun c => c ≠ '\n')
  (splitsDesc line).findSome? (fun p =>
    match p.2 ++ lineTail with
    | '&' :: '&' :: r =>
      match r.dropWhile isWs with
      | 'e' :: 'c' :: 'h' :: 'o' :: r2 =>
        match wsPlus r2 with
        | some r3 =>
          match r3 with
          | '"' :: 'P' :: 'A' :: 'S' :: 'S' :: '"' :: rest => some rest
          | '"' :: 'P' :: 'A' :: 'S' :: 'S' :: rest => some rest
          | 'P' :: 'A' :: 'S' :: 'S' :: '"' :: rest => some rest
          | 'P' :: 'A' :: 'S' :: 'S' :: rest => some rest
          | _ => none
        | none => none
      | _ => none
    | _ => none)

/-- Pattern 2b substitution match at one position (search pattern followed
by `.*&&\s*echo\s+"?PASS"?`): returns the rest after the whole match. -/
def p2bSubAtPos (l : List Char) : Option (Unit × List Char) :=
  match gitLsPrefix l with
  | some r3 =>
    let run := r3.takeWhile nonWs
    let tail := r3.dropWhile nonWs
    if run.contains '*' then
      match dotStarEchoEnd tail with
      | some rest => some ((), rest)
      | none => none
    else none
  | none => none

-- ===========================================================================
-- Corrector pattern 3: `test\s+-([fd])\s+#\s*(\S+)` → `test -\1 \2`.
-- ===========================================================================

/-- Pattern 3 at one start position: returns the flag, the path group and
the rest after the match. -/
def p3AtPos (l : List Char) : Option ((Char × List Char) × List Char) :=
  match testFlagPrefix ['f', 'd'] l with
  | some (f, r3) =>
    match r3 with
    | '#' :: r4 =>
      let r5 := r4.dropWhile isWs
      let run := r5.takeWhile nonWs
      if run.isEmpty then none
      else some ((f, run), r5.dropWhile nonWs)
    | _ => none
  | none => none

def rep3 (m : Char × List Char) : List Char :=
  "test -".data ++ [m.1] ++ [' '] ++ m.2

-- ===========================================================================
-- Corrector pattern 4: unsubstituted placeholder in a test path.
--   search: `test\s+-[fdse]\s+/?(\S*)<[a-z_-]+>(\S*)`
--   if group1.rstrip('/') is nonempty, sub of the search pattern followed
--   by `\s*&&\s*echo\s+"?PASS"?` with `test -d {parent}/ && echo "PASS"`.
-- ===========================================================================

/-- A character allowed inside an angle-bracket placeholder: `[a-z_-]`. -/
def isTagChar (c : Char) : Bool := ('a' ≤ c && c ≤ 'z') || c = '_' || c = '-'

/-- The token `<[a-z_-]+>` at the start of the input, returning the rest. -/
def tagAt (l : List Char) : Option (List Char) :=
  match l with
  | '<' :: r =>
    let w := r.takeWhile isTagChar
    if w.isEmpty then none else
    match r.dropWhile isTagChar with
    | '>' :: rest => some rest
    | _ => none
  | _ => none

/-- A character allowed inside a brace placeholder: `[a-z_]`. -/
def isBraceTagChar (c : Char) : Bool := ('a' ≤ c && c ≤ 'z') || c = '_'

/-- The brace placeholder pattern (open brace, `[a-z_]+`, close brace) at
the start of the input, returning the rest. -/
def braceTagAt (l : List Char) : Option (List Char) :=
  match l with
  | '\x7b' :: r =>
    let w := r.takeWhile isBraceTagChar
    if w.isEmpty then none else
    match r.dropWhile isBraceTagChar with
    | '\x7d' :: rest => some rest
    | _ => none
  | _ => none

/-- Strip one leading slash: the greedy `/?` of patterns 4 and 4b. -/
def stripOneSlash (l : List Char) : List Char :=
  match l with
  | '/' :: r => r
  | _ => l

/-- Python `str.rstrip('/')`. -/
def rstripSlash (l : List Char) : List Char :=
  (l.reverse.dropWhile (fun c => c = '/')).reverse

/-- Group 1 of pattern 4 within a nonspace run (after the optional leading
slash): the run up to the last position at which `<[a-z_-]+>` parses
(greedy `\S*` backtracks from the right). -/
def lastTagGroup (run : List Char) : Option (List Char) :=
  (splitsDesc run).findSome? (fun p =>
    match tagAt p.2 with
    | some _ => some p.1
    | none => none)

/-- Pattern 4 search at one position, returning group 1. -/
def p4AtPos (l : List Char) : Option (List Char) :=
  match testFlagPrefix ['f', 'd', 's', 'e'] l with
  | some (_, r3) =>
    let run := stripOneSlash (r3.takeWhile nonWs)
    lastTagGroup run
  | none => none

/-- Pattern 4 substitution match at one position (search pattern followed
by `\s*&&\s*echo\s+"?PASS"?`): the trailing `\S*` group backtracks from
the right until the echo tail matches.  Returns the rest after the
whole match. -/
def p4SubAtPos (l : List Char) : Option (Unit × List Char) :=
  match testFlagPrefix ['f', 'd', 's', 'e'] l with
  | some (_, r3) =>
    let run := stripOneSlash (r3.takeWhile nonWs)
    let tail := r3.dropWhile nonWs
    (splitsDesc run).findSome? (fun p =>
      match tagAt p.2 with
      | some afterTag =>
        (splitsDesc afterTag).findSome? (fun q =>
          match echoPassEnd (q.2 ++ tail) with
          | some rest => some ((), rest)
          | none => none)
      | none => none)
  | none => none

def rep4 (parent : List Char) : List Char :=
  "test -d ".data ++ parent ++ "/ && echo \"PASS\"".data

-- ===========================================================================
-- Corrector pattern 4b: placeholder in `git ls-files`.
--   search: `git\s+ls-files\s+--error-unmatch\s+/?(\S*)<[a-z_-]+>(\S*)`
--   sub: search pattern + `.*&&\s*echo\s+"?PASS"?` →
--        `ls {parent}/ >/dev/null 2>&1 && echo "PASS"`.
-- ===========================================================================

def p4bAtPos (l : List Char) : Option (List Char) :=
  match gitLsPrefix l with
  | some r3 =>
    let run := stripOneSlash (r3.takeWhile nonWs)
    lastTagGroup run
  | none => none

def p4bSubAtPos (l : List Char) : Option (Unit × List Char) :=
  match gitLsPrefix l with
  | some r3 =>
    let run := stripOneSlash (r3.takeWhile nonWs)
    let tail := r3.dropWhile nonWs
    (splitsDesc run).findSome? (fun p =>
      match tagAt p.2 with
      | some afterTag =>
        (splitsDesc afterTag).findSome? (fun q =>
          match dotStarEchoEnd (q.2 ++ tail) with
          | some rest => some ((), rest)
          | none => none)
      | none => none)
  | none => none

def rep4b (parent : List Char) : List Char :=
  "ls ".data ++ parent ++ "/ >/dev/null 2>&1 && echo \"PASS\"".data

-- ===========================================================================
-- Corrector pattern 5: `test\s+-[fd]\s+(ls|cat|grep|find)\s+` (search);
-- on a hit the first occurrence of `test\s+-[fd]\s+` is removed.
-- ===========================================================================

/-- A literal word followed by at least one whitespace character. -/
def wordThenWs (w l : List Char) : Bool :=
  match litPrefix w l with
  | some (c :: _) => isWs c
  | some [] => false
  | none => false

def p5AtPos (l : List Char) : Bool :=
  match testFlagPrefix ['f', 'd'] l with
  | some (_, r3) =>
    wordThenWs "ls".data r3 || wordThenWs "cat".data r3 ||
      wordThenWs "grep".data r3 || wordThenWs "find".data r3
  | none => false

/-- The substitution `re.sub(r'test\s+-[fd]\s+', '', l, count=1)`: delete the first
occurrence (including the maximal trailing whitespace run). -/
def removeFirstTestFDGo : Nat → List Char → List Char
  | 0, l => l
  | _ + 1, [] => []
  | fuel + 1, c :: cs =>
    match testFlagPrefix ['f', 'd'] (c :: cs) with
    | some (_, rest) => rest
    | none => c :: removeFirstTestFDGo fuel cs

def removeFirstTestFD (l : List Char) : List Char := removeFirstTestFDGo l.length l

-- ===========================================================================
-- Corrector pattern 6: `test\s+-([fd])\s+/([A-Za-z])` → `test -\1 \2`
-- (all occurrences, when the search hits).
-- ===========================================================================

def isAsciiLetter (c : Char) : Bool :=
  ('A' ≤ c && c ≤ 'Z') || ('a' ≤ c && c ≤ 'z')

def p6AtPos (l : List Char) : Option ((Char × Char) × List Char) :=
  match testFlagPrefix ['f', 'd'] l with
  | some (f, r3) =>
    match r3 with
    | '/' :: c :: rest => if isAsciiLetter c then some ((f, c), rest) else none
    | _ => none
  | none => none

def rep6 (m : Char × Char) : List Char :=
  "test -".data ++ [m.1] ++ [' '] ++ [m.2]

-- ===========================================================================
-- Corrector pattern 7: `test\s+-[fd]\s+wc\s+-l\s+` (search); on a hit the
-- first occurrence of `test\s+-[fd]\s+` is removed.
-- ===========================================================================

def p7AtPos (l : List Char) : Bool :=
  match testFlagPrefix ['f', 'd'] l with
  | some (_, r3) =>
    match litPrefix "wc".data r3 with
    | some r4 =>
      match wsPlus r4 with
      | some r5 =>
        match litPrefix "-l".data r5 with
        | some (c :: _) => isWs c
        | _ => false
      | none => false
    | none => false
  | none => false

-- ===========================================================================
-- auto_correct_command: the seven repair rules applied in order, each a
-- search followed (on a hit) by a substitution and a human-readable note.
-- ===========================================================================

/-- One repair rule: the rewritten command and the note appended when the
rule's search fired (the source appends the note exactly when it runs the
substitution, even if the substitution changes nothing). -/
def step1 (l : List Char) : List Char × Option String :=
  if searchP1 l then (subP1 l, some "Changed -f to -d for directory path")
  else (l, none)

def step2 (l : List Char) : List Char × Option String :=
  match firstSome p2AtPos l with
  | some (path, _) =>
    (subAll p2AtPos (fun _ => lsRedirect path) l,
      some "Converted wildcard test to ls command")
  | none => (l, none)

def step2b (l : List Char) : List Char × Option String :=
  match firstSome p2bAtPos l with
  | some path =>
    (subAll p2bSubAtPos (fun _ => lsRedirect path) l,
      some "Converted git ls-files wildcard to ls command")
  | none => (l, none)

def step3 (l : List Char) : List Char × Option String :=
  if (firstSome p3AtPos l).isSome then
    (subAll p3AtPos rep3 l, some "Removed comment character from path")
  else (l, none)

def step4 (l : List Char) : List Char × Option String :=
  match firstSome p4AtPos l with
  | some g1 =>
    let parent := rstripSlash g1
    if parent.isEmpty then (l, none)
    else
      (subAll p4SubAtPos (fun _ => rep4 parent) l,
        some ("Replaced placeholder with parent directory test: "
          ++ String.mk parent ++ "/"))
  | none => (l, none)

def step4b (l : List Char) : List Char × Option String :=
  match firstSome p4bAtPos l with
  | some g1 =>
    let parent := rstripSlash g1
    if parent.isEmpty then (l, none)
    else
      (subAll p4bSubAtPos (fun _ => rep4b parent) l,
        some ("Replaced git ls-files placeholder with ls: "
          ++ String.mk parent ++ "/"))
  | none => (l, none)

def step5 (l : List Char) : List Char × Option String :=
  if searchAnyB p5AtPos l then
    (removeFirstTestFD l, some "Removed incorrect test wrapper from command")
  else (l, none)

def step6 (l : List Char) : List Char × Option String :=
  if (firstSome p6AtPos l).isSome then
    (subAll p6AtPos rep6 l, some "Converted absolute path to relative")
  else (l, none)

def step7 (l : List Char) : List Char × Option String :=
  if searchAnyB p7AtPos l then
    (removeFirstTestFD l, some "Removed incorrect test wrapper from wc command")
  else (l, none)

/-- Apply one repair rule, accumulating its note when it fired. -/
def stepApply (step : List Char → List Char × Option String)
    (s : List Char × List String) : List Char × List String :=
  match step s.1 with
  | (l', some n) => (l', s.2 ++ [n])
  | (l', none) => (l', s.2)

/-- The corrector `auto_correct_command(command)`: returns
`(corrected_command, was_corrected, correction_note)`; `was_corrected`
is true iff the final string differs from the input, and the notes of the
rules that fired are joined with `"; "`. -/
def auto_correct_command (command : String) : String × Bool × String :=
  let original := command.data
  let s :=
    stepApply step7 (stepApply step6 (stepApply step5 (stepApply step4b
      (stepApply step4 (stepApply step3 (stepApply step2b (stepApply step2
        (stepApply step1 (original, [])))))))))
  (String.mk s.1, decide (¬ s.1 = original), String.intercalate "; " s.2)

-- ===========================================================================
-- is_malformed_command: the MALFORMED_PATTERNS scan followed by the path
-- heuristics for `test -` commands.
-- ===========================================================================

/-- MALFORMED_PATTERNS[0]:
`test\s+-[efds]\s+(ls|cat|grep|find|echo|test|python|python3)\s`. -/
def m0AtPos (l : List Char) : Bool :=
  match testFlagPrefix ['e', 'f', 'd', 's'] l with
  | some (_, r3) =>
    ["ls", "cat", "grep", "find", "echo", "test", "python", "python3"].any
      (fun w => wordThenWs w.data r3)
  | none => false

/-- MALFORMED_PATTERNS[3]: `test\s+-f\s+\S+/$` (the anchor `$` also
matches just before a single trailing newline). -/
def m3AtPos (l : List Char) : Bool :=
  match testFlagPrefix ['f'] l with
  | some (f, r3) =>
    if f = 'f' then
      let run := r3.takeWhile nonWs
      let tail := r3.dropWhile nonWs
      decide (2 ≤ run.length) && (run.getLast? = some '/')
        && (tail.isEmpty || tail = ['\n'])
    else false
  | none => false

/-- The path extraction `re.search(r'test\s+-[efds]\s+(\S+)', command)`
used by the classifier's heuristics: the first match's maximal nonspace
run. -/
def testPathAt (l : List Char) : Option (List Char) :=
  match testFlagPrefix ['e', 'f', 'd', 's'] l with
  | some (_, r3) =>
    let run := r3.takeWhile nonWs
    if run.isEmpty then none else some run
  | none => none

/-- The shell command names the classifier refuses as a path head. -/
def shellWords : List (List Char) :=
  ["ls".data, "cat".data, "grep".data, "find".data, "echo".data,
    "test".data, "python".data, "python3".data, "wc".data]

/-- The classifier `is_malformed_command(command)`: `(is_malformed, reason)`. -/
def is_malformed_command (command : String) : Bool × String :=
  let l := command.data
  if searchAnyB m0AtPos l then (true, "Shell command used as file path")
  else if searchAnyB (fun s => (tagAt s).isSome) l then
    (true, "Unsubstituted template variable")
  else if searchAnyB (fun s => (braceTagAt s).isSome) l then
    (true, "Unsubstituted template placeholder")
  else if searchAnyB m3AtPos l then
    (true, "Using -f on directory path (should be -d)")
  else if containsSeq l "test -".data then
    match firstSome testPathAt l with
    | some path =>
      if path.contains ' ' && !("\"".data.isPrefixOf path) then
        (true, "Path contains unquoted spaces")
      else
        let firstWord :=
          if path.contains '/' then path.takeWhile (fun c => c ≠ '/')
          else if path.contains ' ' then path.takeWhile (fun c => c ≠ ' ')
          else path
        if shellWords.contains (firstWord.map Char.toLower) then
          (true, String.mk ("Path starts with shell command '".data
            ++ firstWord ++ "'".data))
        else (false, "")
    | none => (false, "")
  else (false, "")

-- ===========================================================================
-- Data model: CheckResult, expected outputs, aggregation.
-- Wall-clock durations (`duration_ms`) are not modelled.
-- ===========================================================================

/-- One check's recorded outcome (the dict appended to `check_results`);
optional fields are keys only some code paths set. -/
structure CheckResult where
  name : String
  command : String
  correctedCommand : Option String := none
  correctionNote : Option String := none
  expected : Int
  actual : Int
  output : String
  passed : Bool
  error : String
  wasAutoCorrected : Bool := false
  malformed : Bool := false
deriving Repr, DecidableEq

/-- One entry of the `expected_results` mapping of an issue's Expected
Outputs block; absent keys are modelled as `none`. -/
structure ExpectedEntry where
  exit_code : Option Int
  stdout_contains : Option String
deriving Repr, DecidableEq

/-- The parsed Expected Outputs block: `expected_results` keyed by check
number.  A missing `expected_results` key is the empty list. -/
structure ExpectedOutputs where
  expected_results : List (String × ExpectedEntry)
deriving Repr, DecidableEq

/-- Association-list lookup (Python `dict.get(k)` with insertion order,
first hit). -/
def alistGet {α : Type} (l : List (String × α)) (k : String) : Option α :=
  match l with
  | [] => none
  | (k', v) :: t => if k' = k then some v else alistGet t k

/-- Python `str.replace(pat, rep)` (all occurrences, left to right); the
`fuel` is the input length, sufficient because the patterns substituted
by the source are nonempty. -/
def replaceAllGo (pat rep : List Char) : Nat → List Char → List Char
  | 0, l => l
  | _ + 1, [] => []
  | fuel + 1, c :: cs =>
    if pat.isPrefixOf (c :: cs) then
      rep ++ replaceAllGo pat rep fuel ((c :: cs).drop pat.length)
    else c :: replaceAllGo pat rep fuel cs

def replaceAll (s : String) (pat rep : String) : String :=
  String.mk (replaceAllGo pat.data rep.data s.data.length s.data)

/-- The `passed` decision for an executed embedded check: against the
Expected Outputs entry for the check number when the block is present
(missing entries default to exit code 0 and substring `"PASS"`),
otherwise exit code 0 and `"PASS"` in the combined output.  A `none`
block also covers the source treating a falsy (empty) parse as absent. -/
def embeddedPassed (eo : Option ExpectedOutputs) (checkLabel : String)
    (actualExit : Int) (output : String) : Bool :=
  match eo with
  | some block =>
    let checkNum := replaceAll checkLabel "Check " "check_"
    let entry := (alistGet block.expected_results checkNum).getD ⟨none, none⟩
    let expectedExit := entry.exit_code.getD 0
    let expectedStdout := (entry.stdout_contains.getD "PASS")
    decide (actualExit = expectedExit) && containsSeq output.data expectedStdout.data
  | none => decide (actualExit = 0) && containsSeq output.data "PASS".data

/-- An embedded check's spec: ordinal label (`Check N`), name, raw
command. -/
structure CmdSpec where
  check : String
  name : String
  command : String
deriving Repr, DecidableEq

/-- The result record for an executed embedded command (the dict built
after `run_command`); the stored output is truncated to 500 characters. -/
def mkEmbeddedCheckResult (spec : CmdSpec) (corrected : String)
    (wasCorr : Bool) (note : String) (eo : Option ExpectedOutputs)
    (actualExit : Int) (output : String) : CheckResult :=
  let passed := embeddedPassed eo spec.check actualExit output
  { name := spec.name
    command := spec.command
    correctedCommand := if wasCorr then some corrected else none
    correctionNote := if wasCorr then some note else none
    expected := 0
    actual := actualExit
    output := String.mk (output.data.take 500)
    passed := passed
    error := if passed then "" else "Check failed"
    wasAutoCorrected := wasCorr }

/-- The result record for a malformed embedded command, which is never
executed: exit sentinel `-2`, explicit malformed marker. -/
def mkMalformedCheckResult (spec : CmdSpec) (reason : String) : CheckResult :=
  { name := spec.name
    command := spec.command
    expected := 0
    actual := -2
    output := "MALFORMED COMMAND: " ++ reason
    passed := false
    error := "Malformed command detected: " ++ reason
    malformed := true }

/-- The embedded-commands loop of `verify_issue`: each command goes
through corrector and classifier; malformed commands are recorded
without execution, the rest run through the shell oracle `exec`
(modelling `run_command`'s exit code and combined output). -/
def processEmbedded (exec : String → Int × String) (eo : Option ExpectedOutputs)
    (cmds : List CmdSpec) : List CheckResult :=
  cmds.map (fun spec =>
    let c := auto_correct_command spec.command
    let m := is_malformed_command c.1
    if m.1 then mkMalformedCheckResult spec m.2
    else
      let r := exec c.1
      mkEmbeddedCheckResult spec c.1 c.2.1 c.2.2 eo r.1 r.2)

-- ===========================================================================
-- Aggregation and the dependency gate (verify_issue lines 451-465 and
-- 550-586).  The confidence percentage is computed by the source in
-- floating point and is not part of this aggregate (see claim C8).
-- ===========================================================================

structure Aggregate where
  passedCount : Nat
  failedCount : Nat
  allPassed : Bool
deriving Repr, DecidableEq

/-- The counts `passed_count`, `failed_count`, `all_passed` over a result list. -/
def aggregate (checks : List CheckResult) : Aggregate :=
  let p := (checks.filter (fun c => c.passed)).length
  let f := checks.length - p
  { passedCount := p
    failedCount := f
    allPassed := decide (f = 0) && decide (0 < checks.length) }

/-- The synthetic failing check appended when dependencies are
unresolved. -/
def depCheckResult (unresolved : List String) : CheckResult :=
  { name := "dependency_check"
    command := "check_dependencies"
    expected := 0
    actual := 1
    output := "Unresolved dependencies: " ++ String.intercalate ", " unresolved
    passed := false
    error := "Dependencies not satisfied: " ++ String.intercalate ", " unresolved }

/-- The final check list: the synthetic dependency check is appended
after the real checks exactly when some dependency is unresolved. -/
def finalCheckResults (checks : List CheckResult) (unresolved : List String) :
    List CheckResult :=
  if unresolved.isEmpty then checks else checks ++ [depCheckResult unresolved]

/-- The aggregate of one verification: computed over the real checks,
then recomputed after the dependency check is appended (when it is). -/
def verifyAggregate (checks : List CheckResult) (unresolved : List String) :
    Aggregate :=
  let a := aggregate checks
  if unresolved.isEmpty then a
  else aggregate (checks ++ [depCheckResult unresolved])

/-- A dependency's record as the gate sees it: the outer `Option` is
whether `find_issue_file` located a file, the inner whether
`parse_frontmatter` produced a mapping; `status` is the frontmatter's
status key. -/
structure DepRecord where
  status : Option String
deriving Repr, DecidableEq

/-- Python `str.upper()` on ASCII text. -/
def pyUpper (s : String) : String := String.mk (s.data.map Char.toUpper)

/-- The dependency resolution loop: a located record whose status (upper
cased, defaulting to OPEN) is not RESOLVED is unresolved under its own
identifier; a record that cannot be located is unresolved tagged
`" (not found)"`; a located record with no parseable frontmatter is not
flagged. -/
def unresolvedDeps (lookupDep : String → Option (Option DepRecord))
    (deps : List String) : List String :=
  match deps with
  | [] => []
  | d :: t =>
    (match lookupDep d with
      | some (some fm) =>
        if pyUpper (fm.status.getD "OPEN") ≠ "RESOLVED" then [d] else []
      | some none => []
      | none => [d ++ " (not found)"]) ++ unresolvedDeps lookupDep t

-- ===========================================================================
-- Pattern resolver: run_pattern_checks (lines 355-395).
-- ===========================================================================

/-- One check template of a verification pattern. -/
structure PatternCheck where
  name : String
  command : String
  expected_exit : Option Int
  failure_message : Option String
deriving Repr, DecidableEq

structure PatternDef where
  checks : List PatternCheck
deriving Repr, DecidableEq

/-- A depth level's policy; `checks := none` models a policy entry with
no `checks` key. -/
structure DepthLevel where
  checks : Option (List String)
deriving Repr, DecidableEq

/-- The loaded pattern catalog. -/
structure Catalog where
  patterns : List (String × PatternDef)
  depth_levels : List (String × DepthLevel)
deriving Repr, DecidableEq

/-- The expander `substitute_vars`: textual substitution of `{key}` placeholders in
insertion order. -/
def substitute_vars (template : String) (vars : List (String × String)) :
    String :=
  vars.foldl
    (fun r kv => replaceAll r ("\x7b" ++ kv.1 ++ "\x7d") kv.2) template

/-- The category the source derives for a template: `existence` when the
name contains `exist`, else `content_validation`. -/
def checkCategory (c : PatternCheck) : String :=
  if containsSeq c.name.data "exist".data then "existence"
  else "content_validation"

/-- The categories permitted at a depth: the catalog's policy for that
depth, falling back to the default set when the depth or its `checks`
key is absent. -/
def allowedChecks (cat : Catalog) (depth : String) : List String :=
  ((alistGet cat.depth_levels depth).bind (fun d => d.checks)).getD
    ["existence", "content_validation", "git_tracking"]

/-- The templates of a named pattern (empty when the pattern is not in
the catalog). -/
def templatesOf (cat : Catalog) (patternName : String) : List PatternCheck :=
  ((alistGet cat.patterns patternName).map (fun p => p.checks)).getD []

/-- Execute one pattern template through the shell oracle. -/
def runTemplate (exec : String → Int × String)
    (vars : List (String × String)) (check : PatternCheck) : CheckResult :=
  let command := substitute_vars check.command vars
  let expected := check.expected_exit.getD 0
  let r := exec command
  let passed := decide (r.1 = expected)
  { name := check.name
    command := command
    expected := expected
    actual := r.1
    output := String.mk (r.2.data.take 500)
    passed := passed
    error := if passed then "" else (check.failure_message.getD "") }

/-- The resolver `run_pattern_checks`: iterate the pattern's templates, skipping those
whose derived category is not permitted at the depth (unless the depth
is DEEP), executing the rest. -/
def run_pattern_checks (exec : String → Int × String) (patternName : String)
    (cat : Catalog) (vars : List (String × String)) (depth : String) :
    List CheckResult :=
  (templatesOf cat patternName).foldr
    (fun check acc =>
      if ¬ (allowedChecks cat depth).contains (checkCategory check) ∧ depth ≠ "DEEP"
      then acc
      else runTemplate exec vars check :: acc) []

-- ===========================================================================
-- Command-line surface: per-issue results, lane statistics, exit codes
-- (main and verify_lane).
-- ===========================================================================

/-- The outcome of verifying one issue, as the batch drivers see it: a
top-level error result (the dict carrying an `error` key, whose `passed`
field is `False`), or a completed verification with its aggregate
verdict. -/
inductive IssueResultKind where
  | errRes : IssueResultKind
  | okRes : Bool → IssueResultKind
deriving Repr, DecidableEq

/-- The lookup `result.get('passed', False)`. -/
def resultPassedField : IssueResultKind → Bool
  | .errRes => false
  | .okRes b => b

structure LaneStats where
  total : Nat
  passed : Nat
  failed : Nat
  errors : Nat
deriving Repr, DecidableEq

/-- One iteration of verify_lane's loop: error results count as errors,
otherwise the verdict decides passed/failed. -/
def laneStatsStep (s : LaneStats) : IssueResultKind → LaneStats
  | .errRes => { s with total := s.total + 1, errors := s.errors + 1 }
  | .okRes true => { s with total := s.total + 1, passed := s.passed + 1 }
  | .okRes false => { s with total := s.total + 1, failed := s.failed + 1 }

def laneStats (rs : List IssueResultKind) : LaneStats :=
  rs.foldl laneStatsStep ⟨0, 0, 0, 0⟩

/-- Lane mode exit code: `0 if stats['failed'] == 0 else 1`. -/
def laneExitCode (rs : List IssueResultKind) : Nat :=
  if (laneStats rs).failed = 0 then 0 else 1

/-- All-issues mode exit code: lane stats are summed and the exit code is
`0 if total failed == 0 else 1`. -/
def allExitCode (lanes : List (List IssueResultKind)) : Nat :=
  if (lanes.foldl (fun acc rs => acc + (laneStats rs).failed) 0) = 0 then 0
  else 1

/-- Explicit-identifiers mode exit code: the running `all_passed` flag is
cleared by any result whose `passed` field is falsy. -/
def idsExitCode (rs : List IssueResultKind) : Nat :=
  if rs.foldl (fun acc r => acc && resultPassedField r) true then 0 else 1

-- ===========================================================================
-- Status update: update_issue_verified (lines 638-658) and its guard
-- (lines 597-603).  The file write is modelled as the returned content;
-- `none` means the file is not written at all.
-- ===========================================================================

/-- The mutation `update_issue_verified`: when the content opens with `---` and a
`\n---\n` marker is found from index 3, the frontmatter slice
`content[4:end]` gets the verification fields appended (only when no
`date_verified:` is present) and the file is reassembled; otherwise the
content is unchanged (but still rewritten by the source). -/
def update_issue_verified (content : List Char) (dateStr : List Char)
    (confidence : Nat) : List Char :=
  if "---".data.isPrefixOf content then
    match pyFind content "\n---\n".data 3 with
    | some e =>
      let fm := (content.drop 4).take (e - 4)
      let rest := content.drop (e + 5)
      let fm' :=
        if ¬ containsSeq fm "date_verified:".data then
          fm ++ "\ndate_verified: \"".data ++ dateStr ++ "\"\n".data
            ++ "verification_confidence: ".data ++ (Nat.repr confidence).data
            ++ "\n".data
        else fm
      "---\n".data ++ fm' ++ "\n---\n".data ++ rest
    | none => content
  else content

/-- The orchestrator's guard: the issue file is rewritten only when the
caller requested a status update and the aggregate passed. -/
def statusUpdateWrite (updateStatus allPassed : Bool) (content : List Char)
    (dateStr : List Char) (confidence : Nat) : Option (List Char) :=
  if updateStatus && allPassed then
    some (update_issue_verified content dateStr confidence)
  else none

/-- The expected exit code an Expected Outputs block prescribes for a
check label: the `exit_code` of the entry keyed by the check number
(`Check N` → `check_N`), defaulting to 0 when the check has no entry or
the entry has no `exit_code`. -/
def expectedExitFor (block : ExpectedOutputs) (checkLabel : String) : Int :=
  (((alistGet block.expected_results
      (replaceAll checkLabel "Check " "check_")).getD ⟨none, none⟩).exit_code).getD 0

/-- The stdout substring an Expected Outputs block requires for a check
label, defaulting to `"PASS"`. -/
def expectedStdoutFor (block : ExpectedOutputs) (checkLabel : String) : String :=
  (((alistGet block.expected_results
      (replaceAll checkLabel "Check " "check_")).getD ⟨none, none⟩).stdout_contains).getD
    "PASS"

/-- An unsubstituted placeholder token: an angle-bracket-delimited or
brace-delimited variable somewhere in the string (exactly the
placeholder members of MALFORMED_PATTERNS). -/
def hasPlaceholder (l : List Char) : Bool :=
  searchAnyB (fun s => (tagAt s).isSome) l
    || searchAnyB (fun s => (braceTagAt s).isSome) l

-- ===========================================================================
-- Supporting lemmas.
-- ===========================================================================

theorem verifyAggregate_eq (checks : List CheckResult) (unresolved : List String) :
    verifyAggregate checks unresolved = aggregate (finalCheckResults checks unresolved) := by
  unfold verifyAggregate finalCheckResults
  by_cases h : unresolved.isEmpty <;> simp [h]

theorem aggregate_allPassed_iff (l : List CheckResult) :
    (aggregate l).allPassed = true ↔ 0 < l.length ∧ ∀ c ∈ l, c.passed = true := by
  have hle : (l.filter (fun c => c.passed)).length ≤ l.length :=
    List.length_filter_le _ l
  constructor
  · intro h
    simp only [aggregate, Bool.and_eq_true, decide_eq_true_eq] at h
    refine ⟨h.2, ?_⟩
    have hlen : (l.filter (fun c => c.passed)).length = l.length := by omega
    have := (List.filter_sublist (l := l) (p := fun c => c.passed)).eq_of_length hlen
    intro c hc
    have := List.filter_eq_self.mp this c hc
    simpa using this
  · intro ⟨h0, hall⟩
    have : l.filter (fun c => c.passed) = l :=
      List.filter_eq_self.mpr (fun c hc => by simpa using hall c hc)
    simp only [aggregate, Bool.and_eq_true, decide_eq_true_eq]
    rw [this]
    omega

theorem filter_passed_append_dep (checks : List CheckResult) (u : List String) :
    ((checks ++ [depCheckResult u]).filter (fun c => c.passed)).length
      = (checks.filter (fun c => c.passed)).length := by
  rw [List.filter_append]
  simp [depCheckResult]

theorem unresolvedDeps_mem_not_found
    (lookupDep : String → Option (Option DepRecord)) (deps : List String) :
    ∀ d ∈ deps, lookupDep d = none →
      (d ++ " (not found)") ∈ unresolvedDeps lookupDep deps := by
  induction deps with
  | nil => intro d hd; cases hd
  | cons a t ih =>
    intro d hd hnone
    unfold unresolvedDeps
    rcases List.mem_cons.mp hd with rfl | hmem
    · rw [hnone]; simp
    · exact List.mem_append.mpr (Or.inr (ih d hmem hnone))

theorem unresolvedDeps_mem_unresolved
    (lookupDep : String → Option (Option DepRecord)) (deps : List String) :
    ∀ d ∈ deps, ∀ fm, lookupDep d = some (some fm) →
      pyUpper (fm.status.getD "OPEN") ≠ "RESOLVED" →
      d ∈ unresolvedDeps lookupDep deps := by
  induction deps with
  | nil => intro d hd; cases hd
  | cons a t ih =>
    intro d hd fm hfm hstat
    unfold unresolvedDeps
    rcases List.mem_cons.mp hd with rfl | hmem
    · rw [hfm]; simp [hstat]
    · exact List.mem_append.mpr (Or.inr (ih d hmem fm hfm hstat))

end VerifyIssue

namespace VerifyIssue

-- ===========================================================================
-- C1.
-- ===========================================================================

/-- C1: a VerificationOutcome's `all_passed` is true iff at least one
check ran and every CheckResult in the final list (the synthetic
dependency check included) has `passed = true`; in particular it is
false whenever no checks ran. -/
theorem C1_all_passed_iff (checks : List CheckResult) (unresolved : List String) :
    (verifyAggregate checks unresolved).allPassed = true ↔
      0 < (finalCheckResults checks unresolved).length ∧
        ∀ c ∈ finalCheckResults checks unresolved, c.passed = true := by
  rw [verifyAggregate_eq]
  exact aggregate_allPassed_iff _

-- ===========================================================================
-- C3.
-- ===========================================================================

/-- C3: with at least one unresolved dependency, the synthetic failing
`dependency_check` result (listing all unresolved identifiers) is
appended after the real checks; this forces `all_passed = false` and
raises `failed_count` by exactly one over the pre-append aggregate, and
a dependency whose record cannot be located is listed with the
`" (not found)"` tag while a located-but-unresolved one is listed under
its bare identifier. -/
theorem C3_dependency_gate (checks : List CheckResult)
    (lookupDep : String → Option (Option DepRecord)) (deps : List String)
    (h : unresolvedDeps lookupDep deps ≠ []) :
    finalCheckResults checks (unresolvedDeps lookupDep deps)
        = checks ++ [depCheckResult (unresolvedDeps lookupDep deps)] ∧
      (verifyAggregate checks (unresolvedDeps lookupDep deps)).allPassed = false ∧
      (verifyAggregate checks (unresolvedDeps lookupDep deps)).failedCount
        = (aggregate checks).failedCount + 1 ∧
      (depCheckResult (unresolvedDeps lookupDep deps)).passed = false ∧
      (depCheckResult (unresolvedDeps lookupDep deps)).output
        = "Unresolved dependencies: "
            ++ String.intercalate ", " (unresolvedDeps lookupDep deps) ∧
      (∀ d ∈ deps, lookupDep d = none →
        (d ++ " (not found)") ∈ unresolvedDeps lookupDep deps) ∧
      (∀ d ∈ deps, ∀ fm, lookupDep d = some (some fm) →
        pyUpper (fm.status.getD "OPEN") ≠ "RESOLVED" →
        d ∈ unresolvedDeps lookupDep deps) := by
  have hne : (unresolvedDeps lookupDep deps).isEmpty = false := by
    cases hu' : unresolvedDeps lookupDep deps with
    | nil => exact absurd hu' h
    | cons a t => simp
  have hfilter := filter_passed_append_dep checks (unresolvedDeps lookupDep deps)
  have hle : (checks.filter (fun c => c.passed)).length ≤ checks.length :=
    List.length_filter_le _ checks
  refine ⟨?_, ?_, ?_, rfl, rfl,
    unresolvedDeps_mem_not_found lookupDep deps,
    unresolvedDeps_mem_unresolved lookupDep deps⟩
  · simp [finalCheckResults, hne]
  · simp only [verifyAggregate, hne, Bool.false_eq_true, if_false, aggregate,
      hfilter, List.length_append, List.length_cons, List.length_nil]
    have : checks.length + 1 - (checks.filter (fun c => c.passed)).length ≠ 0 := by
      omega
    simp [this]
  · simp only [verifyAggregate, hne, Bool.false_eq_true, if_false, aggregate,
      hfilter, List.length_append, List.length_cons, List.length_nil]
    omega

-- ===========================================================================
-- C2.
-- ===========================================================================

/-- C2: the CheckResult recorded for an executed embedded check has
`passed = true` iff, with an Expected Outputs block present, the actual
exit code equals the expected exit code for that check number and the
expected stdout substring occurs in the combined output (defaulting to
exit code 0 and `"PASS"` when the check has no entry), and otherwise
iff the exit code is 0 and `"PASS"` occurs in the output. -/
theorem C2_embedded_passed_iff (spec : CmdSpec) (corrected note : String)
    (wasCorr : Bool) (eo : Option ExpectedOutputs) (actualExit : Int)
    (output : String) :
    (mkEmbeddedCheckResult spec corrected wasCorr note eo actualExit output).passed
        = true ↔
      (match eo with
        | some block =>
          actualExit = expectedExitFor block spec.check ∧
            containsSeq output.data (expectedStdoutFor block spec.check).data = true
        | none =>
          actualExit = 0 ∧ containsSeq output.data "PASS".data = true) := by
  cases eo with
  | none =>
    simp [mkEmbeddedCheckResult, embeddedPassed, Bool.and_eq_true,
      decide_eq_true_eq]
  | some block =>
    simp [mkEmbeddedCheckResult, embeddedPassed, expectedExitFor,
      expectedStdoutFor, Bool.and_eq_true, decide_eq_true_eq]

-- ===========================================================================
-- C4.
-- ===========================================================================

theorem laneStats_failed_foldl (rs : List IssueResultKind) (s : LaneStats) :
    (rs.foldl laneStatsStep s).failed
      = s.failed + rs.count (IssueResultKind.okRes false) := by
  induction rs generalizing s with
  | nil => simp [List.count]
  | cons r t ih =>
    rw [List.foldl_cons, ih]
    cases r with
    | errRes => simp [laneStatsStep, List.count_cons]
    | okRes b =>
      cases b
      · simp only [laneStatsStep, List.count_cons]
        simp
        omega
      · simp [laneStatsStep, List.count_cons]

theorem laneStats_failed (rs : List IssueResultKind) :
    (laneStats rs).failed = rs.count (IssueResultKind.okRes false) := by
  have := laneStats_failed_foldl rs ⟨0, 0, 0, 0⟩
  simpa [laneStats] using this

theorem foldl_and_eq_all (rs : List IssueResultKind) (b : Bool) :
    rs.foldl (fun acc r => acc && resultPassedField r) b
      = (b && rs.all resultPassedField) := by
  induction rs generalizing b with
  | nil => simp
  | cons r t ih => simp [List.foldl_cons, ih, Bool.and_assoc]

/-- C4 counterexample: a lane containing one issue whose verification
surfaced a top-level error — a result whose `passed` field is false —
exits with code 0 in lane mode, while explicit-identifiers mode exits
with 1 on the very same result; so "exit code 0 iff every verified
issue passed" fails on the code (whichever way an errored issue is
read, one of the modes disagrees). -/
theorem C4_exit_code_counterexample :
    laneExitCode [IssueResultKind.errRes] = 0 ∧
      resultPassedField IssueResultKind.errRes = false ∧
      idsExitCode [IssueResultKind.errRes] = 1 := by
  exact ⟨rfl, rfl, rfl⟩

/-- C4 as amended: in explicit-identifiers mode the exit code is 0 iff
every requested issue's result has a true `passed` field (error results
count as not passed); in lane mode and all-issues mode the exit code is
0 iff no issue completed verification with a failing verdict — issues
whose verification surfaced a top-level error do not affect the exit
code in those two modes. -/
theorem C4_exit_codes_amended (rs : List IssueResultKind)
    (lanes : List (List IssueResultKind)) :
    (idsExitCode rs = 0 ↔ ∀ r ∈ rs, resultPassedField r = true) ∧
      (laneExitCode rs = 0 ↔ IssueResultKind.okRes false ∉ rs) ∧
      (allExitCode lanes = 0 ↔ ∀ lane ∈ lanes, IssueResultKind.okRes false ∉ lane) := by
  refine ⟨?_, ?_, ?_⟩
  · unfold idsExitCode
    rw [foldl_and_eq_all]
    constructor
    · intro h
      by_cases h2 : rs.all resultPassedField = true
      · exact fun r hr => List.all_eq_true.mp h2 r hr
      · simp [h2] at h
    · intro h
      have : rs.all resultPassedField = true := List.all_eq_true.mpr h
      simp [this]
  · unfold laneExitCode
    rw [laneStats_failed]
    constructor
    · intro h
      by_cases hc : rs.count (IssueResultKind.okRes false) = 0
      · exact List.count_eq_zero.mp hc
      · simp [hc] at h
    · intro h
      simp [List.count_eq_zero.mpr h]
  · unfold allExitCode
    have hsum : ∀ (acc : Nat),
        lanes.foldl (fun acc rs => acc + (laneStats rs).failed) acc
          = acc + (lanes.map (fun rs => (laneStats rs).failed)).sum := by
      induction lanes with
      | nil => intro acc; simp
      | cons a t ih => intro acc; simp [List.foldl_cons, ih, Nat.add_assoc]
    rw [hsum 0, Nat.zero_add]
    constructor
    · intro h lane hlane
      by_cases hz : (lanes.map (fun rs => (laneStats rs).failed)).sum = 0
      · have : ∀ x ∈ lanes.map (fun rs => (laneStats rs).failed), x = 0 :=
          List.sum_eq_zero_iff.mp hz
        have hlz : (laneStats lane).failed = 0 :=
          this _ (List.mem_map_of_mem _ hlane)
        rw [laneStats_failed] at hlz
        exact List.count_eq_zero.mp hlz
      · simp [hz] at h
    · intro h
      have : (lanes.map (fun rs => (laneStats rs).failed)).sum = 0 := by
        apply List.sum_eq_zero_iff.mpr
        intro x hx
        rcases List.mem_map.mp hx with ⟨lane, hlane, rfl⟩
        rw [laneStats_failed]
        exact List.count_eq_zero.mpr (h lane hlane)
      simp [this]

-- ===========================================================================
-- C7.
-- ===========================================================================

theorem run_pattern_checks_eq_filter_map (exec : String → Int × String)
    (patternName : String) (cat : Catalog) (vars : List (String × String))
    (depth : String) :
    run_pattern_checks exec patternName cat vars depth =
      (if depth = "DEEP" then templatesOf cat patternName
       else (templatesOf cat patternName).filter
         (fun c => (allowedChecks cat depth).contains (checkCategory c))).map
        (runTemplate exec vars) := by
  unfold run_pattern_checks
  by_cases hdeep : depth = "DEEP"
  · simp only [hdeep, if_true, ne_eq, not_true_eq_false, and_false, if_false]
    induction templatesOf cat patternName with
    | nil => simp
    | cons c t ih => simp [List.foldr_cons, ih]
  · rw [if_neg hdeep]
    induction templatesOf cat patternName with
    | nil => simp
    | cons c t ih =>
      rw [List.foldr_cons, List.filter_cons]
      by_cases hc : (allowedChecks cat depth).contains (checkCategory c) = true
      · rw [if_neg (fun h => h.1 hc), if_pos hc, List.map_cons]
        exact congrArg _ ih
      · rw [if_pos ⟨hc, hdeep⟩, if_neg hc]
        exact ih

/-- C7: on the pattern fallback, exactly the templates whose derived
category is permitted at the requested depth execute (the permitted set
defaulting to existence, content_validation, git_tracking when the
catalog has no policy for the depth — see `allowedChecks`), and at depth
DEEP no filtering is applied: the result is the full (or filtered)
template list run through the checker. -/
theorem C7_depth_filter (exec : String → Int × String) (patternName : String)
    (cat : Catalog) (vars : List (String × String)) (depth : String) :
    run_pattern_checks exec patternName cat vars depth =
      (if depth = "DEEP" then templatesOf cat patternName
       else (templatesOf cat patternName).filter
         (fun c => (allowedChecks cat depth).contains (checkCategory c))).map
        (runTemplate exec vars) :=
  run_pattern_checks_eq_filter_map exec patternName cat vars depth

-- ===========================================================================
-- C6.
-- ===========================================================================

/-- C6: a command that still contains an unsubstituted placeholder after
auto-correction is classified as malformed. -/
theorem C6_placeholder_malformed (cmd : String)
    (h : hasPlaceholder ((auto_correct_command cmd).1).data = true) :
    (is_malformed_command (auto_correct_command cmd).1).1 = true := by
  generalize (auto_correct_command cmd).1 = c at h ⊢
  simp only [hasPlaceholder, Bool.or_eq_true] at h
  unfold is_malformed_command
  by_cases h0 : searchAnyB m0AtPos c.data = true
  · simp [h0]
  · rcases h with h1 | h2
    · simp [h0, h1]
    · by_cases h1 : searchAnyB (fun s => (tagAt s).isSome) c.data = true
      · simp [h0, h1]
      · simp [h0, h1, h2]

/-- Witness for C6: the placeholder of `grep <pat> x` survives
correction untouched, and the classifier flags the command. -/
theorem C6_placeholder_malformed_witness :
    (is_malformed_command (auto_correct_command "grep <pat> x").1).1 = true :=
  C6_placeholder_malformed "grep <pat> x" (by decide)

-- ===========================================================================
-- C9.
-- ===========================================================================

/-- C9: a status update writes the issue file only when the caller
requested the update and the aggregate passed; on a well-formed issue
file whose frontmatter has no `date_verified:` the write appends exactly
the `date_verified` and `verification_confidence` lines (plus the blank
line the reassembly introduces) to the frontmatter, leaving every
existing frontmatter character and the whole body unchanged; when
`date_verified:` is already present the content is rewritten verbatim. -/
theorem C9_status_update :
    (∀ (u a : Bool) (content dateStr : List Char) (conf : Nat),
        ¬ (u = true ∧ a = true) →
          statusUpdateWrite u a content dateStr conf = none) ∧
      (∀ (fm rest dateStr : List Char) (conf : Nat),
        pyFind ("---\n".data ++ fm ++ "\n---\n".data ++ rest) "\n---\n".data 3
            = some (4 + fm.length) →
          (containsSeq fm "date_verified:".data = false →
            statusUpdateWrite true true
                ("---\n".data ++ fm ++ "\n---\n".data ++ rest) dateStr conf
              = some ("---\n".data ++ fm
                  ++ "\ndate_verified: \"".data ++ dateStr ++ "\"\n".data
                  ++ "verification_confidence: ".data ++ (Nat.repr conf).data
                  ++ "\n".data ++ "\n---\n".data ++ rest)) ∧
          (containsSeq fm "date_verified:".data = true →
            statusUpdateWrite true true
                ("---\n".data ++ fm ++ "\n---\n".data ++ rest) dateStr conf
              = some ("---\n".data ++ fm ++ "\n---\n".data ++ rest))) := by
  constructor
  · intro u a content dateStr conf h
    unfold statusUpdateWrite
    have : (u && a) = false := by
      cases u <;> cases a <;> simp_all
    simp [this]
  · intro fm rest dateStr conf hfind
    have hpre : "---".data.isPrefixOf ("---\n".data ++ fm ++ "\n---\n".data ++ rest)
        = true := by
      simp [List.isPrefixOf]
    have hdrop : (("---\n".data ++ fm ++ "\n---\n".data ++ rest).drop 4).take
          ((4 + fm.length) - 4) = fm := by
      have h4 : ("---\n".data).length = 4 := by decide
      rw [show (4 : Nat) + fm.length - 4 = fm.length by omega]
      rw [List.append_assoc, List.append_assoc]
      rw [show (4 : Nat) = ("---\n".data).length from h4.symm]
      rw [List.drop_left]
      exact List.take_left' rfl
    have hrest : ("---\n".data ++ fm ++ "\n---\n".data ++ rest).drop
          ((4 + fm.length) + 5) = rest := by
      have : ("---\n".data ++ fm ++ "\n---\n".data).length = 4 + fm.length + 5 := by
        simp [List.length_append]
        omega
      rw [show ("---\n".data ++ fm ++ "\n---\n".data ++ rest)
          = ("---\n".data ++ fm ++ "\n---\n".data) ++ rest by
        simp [List.append_assoc]]
      rw [show (4 + fm.length + 5 : Nat)
          = ("---\n".data ++ fm ++ "\n---\n".data).length from this.symm]
      exact List.drop_left _ _
    constructor
    · intro hnodate
      unfold statusUpdateWrite update_issue_verified
      simp only [Bool.and_self, if_true, hpre, hfind, hdrop, hrest, hnodate,
        Bool.false_eq_true, not_false_eq_true, if_pos, if_true]
      simp [List.append_assoc]
    · intro hdate
      unfold statusUpdateWrite update_issue_verified
      simp only [Bool.and_self, if_true, hpre, hfind, hdrop, hrest, hdate,
        not_true_eq_false, Bool.true_eq_false, if_false]

/-- Witness for C9 on a concrete issue file with frontmatter
`status: OPEN`, body `Body`, confidence 100. -/
theorem C9_status_update_witness :
    statusUpdateWrite false true "---\nstatus: OPEN\n---\nBody\n".data
        "2026-10-12".data 100 = none ∧
      statusUpdateWrite true true
          ("---\n".data ++ "status: OPEN".data ++ "\n---\n".data ++ "Body\n".data)
          "2026-10-12".data 100
        = some ("---\n".data ++ "status: OPEN".data
            ++ "\ndate_verified: \"".data ++ "2026-10-12".data ++ "\"\n".data
            ++ "verification_confidence: ".data ++ (Nat.repr 100).data
            ++ "\n".data ++ "\n---\n".data ++ "Body\n".data) := by
  constructor
  · exact C9_status_update.1 false true _ _ _ (by simp)
  · exact (C9_status_update.2 "status: OPEN".data "Body\n".data
      "2026-10-12".data 100 (by decide)).1 (by decide)

-- ===========================================================================
-- C10.
-- ===========================================================================

theorem shellWords_length {x : List Char} (h : x ∈ shellWords) : x.length ≤ 7 := by
  simp only [shellWords, List.mem_cons, List.not_mem_nil, or_false] at h
  rcases h with rfl | rfl | rfl | rfl | rfl | rfl | rfl | rfl | rfl
  all_goals decide

/-- Every reason string the classifier can produce is short (at most 60
characters): the constants are fixed text and the constructed reason
embeds a shell command name of at most 7 characters. -/
theorem is_malformed_reason_length (cmd : String) :
    ((is_malformed_command cmd).2).length ≤ 60 := by
  unfold is_malformed_command
  by_cases h0 : searchAnyB m0AtPos cmd.data = true
  · simp only [h0, if_true]; decide
  · simp only [h0, Bool.false_eq_true, if_false]
    by_cases h1 : searchAnyB (fun s => (tagAt s).isSome) cmd.data = true
    · simp only [h1, if_true]; decide
    · simp only [h1, Bool.false_eq_true, if_false]
      by_cases h2 : searchAnyB (fun s => (braceTagAt s).isSome) cmd.data = true
      · simp only [h2, if_true]; decide
      · simp only [h2, Bool.false_eq_true, if_false]
        by_cases h3 : searchAnyB m3AtPos cmd.data = true
        · simp only [h3, if_true]; decide
        · simp only [h3, Bool.false_eq_true, if_false]
          by_cases h4 : containsSeq cmd.data "test -".data = true
          · simp only [h4, if_true]
            cases hp : firstSome testPathAt cmd.data with
            | none => decide
            | some path =>
              simp only []
              by_cases h5 :
                  (path.contains ' ' && !("\"".data.isPrefixOf path)) = true
              · simp only [h5, if_true]; decide
              · simp only [h5, Bool.false_eq_true, if_false]
                by_cases h6 : shellWords.contains
                    ((if path.contains '/' then
                        path.takeWhile (fun c => c ≠ '/')
                      else if path.contains ' ' then
                        path.takeWhile (fun c => c ≠ ' ')
                      else path).map Char.toLower) = true
                · simp only [h6, if_true]
                  have hmem : ((if path.contains '/' then
                        path.takeWhile (fun c => c ≠ '/')
                      else if path.contains ' ' then
                        path.takeWhile (fun c => c ≠ ' ')
                      else path).map Char.toLower) ∈ shellWords := by
                    simpa using h6
                  have hlen := shellWords_length hmem
                  rw [List.length_map] at hlen
                  simp only [String.length, List.length_append, List.length_cons,
                    List.length_nil]
                  omega
                · simp only [h6, Bool.false_eq_true, if_false]; decide
          · simp only [h4, Bool.false_eq_true, if_false]; decide

/-- C10: every CheckResult produced on the embedded-command path and on
the pattern-fallback path stores an output of at most 500 characters:
executed checks truncate the combined command output to 500 characters
and a malformed check's fixed-text output is already short. -/
theorem C10_output_truncated (exec execP : String → Int × String)
    (eo : Option ExpectedOutputs) (cmds : List CmdSpec) (patternName : String)
    (cat : Catalog) (vars : List (String × String)) (depth : String) :
    (∀ r ∈ processEmbedded exec eo cmds, r.output.length ≤ 500) ∧
      (∀ r ∈ run_pattern_checks execP patternName cat vars depth,
        r.output.length ≤ 500) := by
  constructor
  · intro r hr
    rcases List.mem_map.mp hr with ⟨spec, _, rfl⟩
    by_cases hm : (is_malformed_command (auto_correct_command spec.command).1).1
        = true
    · simp only [hm, if_true, mkMalformedCheckResult]
      rw [String.length_append]
      have := is_malformed_reason_length (auto_correct_command spec.command).1
      have h19 : ("MALFORMED COMMAND: " : String).length = 19 := by decide
      omega
    · simp only [hm, Bool.false_eq_true, if_false, mkEmbeddedCheckResult]
      simp only [String.length]
      rw [List.length_take]
      omega
  · intro r hr
    rw [run_pattern_checks_eq_filter_map] at hr
    rcases List.mem_map.mp hr with ⟨check, _, rfl⟩
    simp only [runTemplate]
    simp only [String.length]
    rw [List.length_take]
    omega

set_option maxRecDepth 100000 in
/-- Witness for C10 on a command whose oracle output has 600 characters:
the stored output is truncated to 500. -/
theorem C10_output_truncated_witness :
    ((processEmbedded (fun _ => (0, String.mk (List.replicate 600 'x'))) none
        [⟨"Check 1", "truncates", "echo PASS"⟩]).headD
      (mkMalformedCheckResult ⟨"", "", ""⟩ "")).output.length ≤ 500 :=
  (C10_output_truncated (fun _ => (0, String.mk (List.replicate 600 'x')))
      (fun _ => (0, "")) none [⟨"Check 1", "truncates", "echo PASS"⟩]
      "" ⟨[], []⟩ [] "STANDARD").1 _ (by decide)

-- ===========================================================================
-- C5: supporting lemmas about the pattern-1 scanner.
-- ===========================================================================

theorem lastSlashSplitAux_append {cs g r : List Char}
    (h : lastSlashSplitAux cs = some (g, r)) : cs = g ++ r := by
  induction cs generalizing g r with
  | nil => simp [lastSlashSplitAux] at h
  | cons c t ih =>
    unfold lastSlashSplitAux at h
    cases ht : lastSlashSplitAux t with
    | some p =>
      rw [ht] at h
      cases p with
      | mk g' r' =>
        simp only [Option.some.injEq, Prod.mk.injEq] at h
        rcases h with ⟨hg, hr⟩
        rw [← hg, ← hr]
        simpa using congrArg (c :: ·) (ih ht)
    | none =>
      rw [ht] at h
      by_cases hc : c = '/'
      · simp only [hc, if_true, Option.some.injEq, Prod.mk.injEq] at h
        rcases h with ⟨hg, hr⟩
        rw [← hg, ← hr, hc]
        rfl
      · simp [hc] at h

theorem lastSlashSplit_append {run g a : List Char}
    (h : lastSlashSplit run = some (g, a)) : run = g ++ a := by
  cases run with
  | nil => simp [lastSlashSplit] at h
  | cons c cs =>
    simp only [lastSlashSplit] at h
    cases ht : lastSlashSplitAux cs with
    | some p =>
      rw [ht] at h
      cases p with
      | mk g' a' =>
        simp only [Option.map_some', Option.some.injEq, Prod.mk.injEq] at h
        rcases h with ⟨hg, ha⟩
        rw [← hg, ← ha]
        simpa using congrArg (c :: ·) (lastSlashSplitAux_append ht)
    | none => rw [ht] at h; cases h

theorem p1Head_decomp {l ws1 ws2 run tail : List Char}
    (h : p1Head l = some (ws1, ws2, run, tail)) :
    l = "test".data ++ ws1 ++ "-f".data ++ ws2 ++ run ++ tail ∧
      ws1 ≠ [] ∧ ∀ c ∈ ws1, isWs c = true := by
  unfold p1Head at h
  split at h <;> try exact Option.noConfusion h
  rename_i r
  split at h <;> try exact Option.noConfusion h
  rename_i hws1
  split at h <;> try exact Option.noConfusion h
  rename_i r2 hdrop
  split at h <;> try exact Option.noConfusion h
  rename_i hws2
  simp only [Option.some.injEq, Prod.mk.injEq] at h
  rcases h with ⟨h1, h2, h3, h4⟩
  subst h1; subst h2; subst h3; subst h4
  refine ⟨?_, ?_, fun c hc => List.mem_takeWhile_imp hc⟩
  · have e1 : r.takeWhile isWs ++ r.dropWhile isWs = r :=
      List.takeWhile_append_dropWhile isWs r
    have e2 : r2.takeWhile isWs ++ r2.dropWhile isWs = r2 :=
      List.takeWhile_append_dropWhile isWs r2
    have e3 : (r2.dropWhile isWs).takeWhile nonWs
        ++ (r2.dropWhile isWs).dropWhile nonWs = r2.dropWhile isWs :=
      List.takeWhile_append_dropWhile nonWs (r2.dropWhile isWs)
    have hcf : "-f".data ++ r2 = r.dropWhile isWs := by
      rw [hdrop]; rfl
    simp only [List.append_assoc]
    rw [e3, e2, hcf, e1]
    rfl
  · intro hnil
    rw [hnil] at hws1
    simp at hws1

theorem tryP1Sub_decomp {l : List Char} {m : P1Match}
    (h : tryP1Sub l = some m) :
    l = "test".data ++ m.ws1 ++ "-f".data ++ m.ws2 ++ m.grp ++ m.rest ∧
      m.ws1 ≠ [] ∧ ∀ c ∈ m.ws1, isWs c = true := by
  unfold tryP1Sub at h
  split at h <;> try exact Option.noConfusion h
  rename_i ws1 ws2 run tail hhead
  split at h <;> try exact Option.noConfusion h
  rename_i g a hsplit
  simp only [Option.some.injEq] at h
  subst h
  obtain ⟨hl, hne, hws⟩ := p1Head_decomp hhead
  refine ⟨?_, hne, hws⟩
  rw [hl, lastSlashSplit_append hsplit]
  simp [List.append_assoc]

theorem slashAmpScan_mem {cs tail : List Char}
    (h : slashAmpScan cs tail = true) : '/' ∈ cs := by
  induction cs with
  | nil => simp [slashAmpScan] at h
  | cons c t ih =>
    simp only [slashAmpScan, Bool.or_eq_true, Bool.and_eq_true,
      decide_eq_true_eq] at h
    rcases h with ⟨hc, _⟩ | h
    · rw [hc]; exact List.mem_cons_self _ _
    · exact List.mem_cons_of_mem _ (ih h)

theorem mem_lastSlashSplitAux {cs : List Char} (h : '/' ∈ cs) :
    (lastSlashSplitAux cs).isSome = true := by
  induction cs with
  | nil => cases h
  | cons c t ih =>
    unfold lastSlashSplitAux
    cases ht : lastSlashSplitAux t with
    | some p => simp
    | none =>
      rcases List.mem_cons.mp h with hc | hmem
      · simp [ht, ← hc]
      · have := ih hmem
        rw [ht] at this
        exact Bool.noConfusion this

theorem p1AtPos_tryP1Sub {l : List Char} (h : p1AtPos l = true) :
    (tryP1Sub l).isSome = true := by
  unfold p1AtPos at h
  unfold tryP1Sub
  cases hhead : p1Head l with
  | none => rw [hhead] at h; exact Bool.noConfusion h
  | some q =>
    rw [hhead] at h
    obtain ⟨ws1, ws2, run, tail⟩ := q
    cases hrun : run with
    | nil => rw [hrun] at h; exact Bool.noConfusion h
    | cons c cs =>
      rw [hrun] at h
      have hmem : '/' ∈ cs := slashAmpScan_mem h
      have := mem_lastSlashSplitAux hmem
      cases haux : lastSlashSplitAux cs with
      | none => rw [haux] at this; exact Bool.noConfusion this
      | some p =>
        simp [hrun, lastSlashSplit, haux]

/-- The pattern-1 rewrite at a match is never the identity: the
replacement opens `test -d ` where the input had `test`, whitespace and
`-f`. -/
theorem p1_replacement_ne {m : P1Match} (hne : m.ws1 ≠ [])
    (hws : ∀ c ∈ m.ws1, isWs c = true) (X : List Char) :
    "test -d ".data ++ m.grp ++ X
      ≠ "test".data ++ m.ws1 ++ "-f".data ++ m.ws2 ++ m.grp ++ m.rest := by
  intro heq
  cases hw : m.ws1 with
  | nil => exact hne hw
  | cons w ws' =>
    rw [hw] at heq
    have h4 : ' ' :: '-' :: 'd' :: ' ' :: (m.grp ++ X)
        = w :: (ws' ++ ('-' :: 'f' :: (m.ws2 ++ m.grp ++ m.rest))) := by
      have := heq
      simp only [show "test -d ".data
          = 't' :: 'e' :: 's' :: 't' :: ' ' :: '-' :: 'd' :: ' ' :: [] from rfl,
        show "test".data = 't' :: 'e' :: 's' :: 't' :: [] from rfl,
        show "-f".data = '-' :: 'f' :: [] from rfl,
        List.cons_append, List.nil_append, List.append_assoc,
        List.cons.injEq, true_and] at this
      simpa [List.append_assoc] using this
    have hwsp : isWs w = true := hws w (by rw [hw]; exact List.mem_cons_self _ _)
    cases ws' with
    | nil =>
      simp only [List.nil_append, List.cons.injEq] at h4
      exact absurd h4.2.2.1.symm (by decide)
    | cons w2 ws'' =>
      simp only [List.cons_append, List.cons.injEq] at h4
      have hw2 : isWs w2 = true := hws w2 (by
        rw [hw]; exact List.mem_cons_of_mem _ (List.mem_cons_self _ _))
      rw [← h4.2.1] at hw2
      exact absurd hw2 (by decide)

theorem subP1Go_ne {fuel : Nat} {l : List Char} (hlen : l.length ≤ fuel)
    (h : searchP1 l = true) : subP1Go fuel l ≠ l := by
  induction fuel generalizing l with
  | zero =>
    have : l = [] := List.length_eq_zero.mp (Nat.le_zero.mp hlen)
    rw [this] at h
    exact absurd h (by simp [searchP1])
  | succ fuel ih =>
    cases l with
    | nil => exact absurd h (by simp [searchP1])
    | cons c cs =>
      unfold subP1Go
      cases htry : tryP1Sub (c :: cs) with
      | some m =>
        obtain ⟨hl, hne, hws⟩ := tryP1Sub_decomp htry
        rw [hl]
        exact p1_replacement_ne hne hws _
      | none =>
        have hpos : p1AtPos (c :: cs) = false := by
          by_contra hp
          have := p1AtPos_tryP1Sub (Bool.of_not_eq_false hp)
          rw [htry] at this
          exact Bool.noConfusion this
        have hsearch : searchP1 cs = true := by
          unfold searchP1 at h
          rw [hpos] at h
          simpa using h
        have hlen' : cs.length ≤ fuel := by
          simp only [List.length_cons] at hlen
          omega
        intro heq
        have := List.cons.injEq c (subP1Go fuel cs) c cs ▸ heq
        simp only [List.cons.injEq, true_and] at heq
        exact ih hlen' hsearch heq

theorem subP1_ne {l : List Char} (h : searchP1 l = true) : subP1 l ≠ l :=
  subP1Go_ne (Nat.le_refl _) h

theorem subP1Go_hasTestD {fuel : Nat} {l : List Char} (hlen : l.length ≤ fuel)
    (h : searchP1 l = true) :
    List.IsInfix "test -d ".data (subP1Go fuel l) := by
  induction fuel generalizing l with
  | zero =>
    have : l = [] := List.length_eq_zero.mp (Nat.le_zero.mp hlen)
    rw [this] at h
    exact absurd h (by simp [searchP1])
  | succ fuel ih =>
    cases l with
    | nil => exact absurd h (by simp [searchP1])
    | cons c cs =>
      unfold subP1Go
      cases htry : tryP1Sub (c :: cs) with
      | some m =>
        exact ⟨[], m.grp ++ subP1Go fuel m.rest, by simp [List.append_assoc]⟩
      | none =>
        have hpos : p1AtPos (c :: cs) = false := by
          by_contra hp
          have := p1AtPos_tryP1Sub (Bool.of_not_eq_false hp)
          rw [htry] at this
          exact Bool.noConfusion this
        have hsearch : searchP1 cs = true := by
          unfold searchP1 at h
          rw [hpos] at h
          simpa using h
        have hlen' : cs.length ≤ fuel := by
          simp only [List.length_cons] at hlen
          omega
        obtain ⟨s, t, hst⟩ := ih hlen' hsearch
        exact ⟨c :: s, t, by rw [← hst]; simp⟩

theorem subP1_hasTestD {l : List Char} (h : searchP1 l = true) :
    List.IsInfix "test -d ".data (subP1 l) :=
  subP1Go_hasTestD (Nat.le_refl _) h

/-- C5 counterexample: `test -f config/` is a file-existence test whose
path argument ends in `/`, yet the corrector leaves it untouched and
reports `wasCorrected = false` — rule 1 only fires when the
slash-terminated path is followed by `&&`. -/
theorem C5_rule1_counterexample :
    auto_correct_command "test -f config/" = ("test -f config/", false, "") := by
  decide

/-- C5 as amended: when a file test on a slash-terminated path is
followed by `&&` (the source's rule-1 pattern) and no other repair rule
fires on the rewritten command, `auto_correct_command` returns the
command with every `test -f <path>/` rewritten to `test -d <path>/`
(so the output contains a directory test) together with
`wasCorrected = true` and the rule-1 note. -/
theorem C5_rule1_amended (cmd : String) (h1 : searchP1 cmd.data = true)
    (h2 : step2 (subP1 cmd.data) = (subP1 cmd.data, none))
    (h2b : step2b (subP1 cmd.data) = (subP1 cmd.data, none))
    (h3 : step3 (subP1 cmd.data) = (subP1 cmd.data, none))
    (h4 : step4 (subP1 cmd.data) = (subP1 cmd.data, none))
    (h4b : step4b (subP1 cmd.data) = (subP1 cmd.data, none))
    (h5 : step5 (subP1 cmd.data) = (subP1 cmd.data, none))
    (h6 : step6 (subP1 cmd.data) = (subP1 cmd.data, none))
    (h7 : step7 (subP1 cmd.data) = (subP1 cmd.data, none)) :
    auto_correct_command cmd
        = (String.mk (subP1 cmd.data), true,
            "Changed -f to -d for directory path")
      ∧ List.IsInfix "test -d ".data (subP1 cmd.data) := by
  refine ⟨?_, subP1_hasTestD h1⟩
  unfold auto_correct_command
  have hstep1 : step1 cmd.data
      = (subP1 cmd.data, some "Changed -f to -d for directory path") := by
    unfold step1
    rw [if_pos h1]
  simp only [stepApply, hstep1, h2, h2b, h3, h4, h4b, h5, h6, h7]
  refine Prod.ext rfl (Prod.ext ?_ ?_)
  · simp only [decide_eq_true_eq]
    exact subP1_ne h1
  · rfl

/-- Witness for C5 on the specification's own scenario
`test -f config/ && echo PASS`. -/
theorem C5_rule1_amended_witness :
    auto_correct_command "test -f config/ && echo PASS"
        = (String.mk (subP1 "test -f config/ && echo PASS".data), true,
            "Changed -f to -d for directory path")
      ∧ List.IsInfix "test -d ".data (subP1 "test -f config/ && echo PASS".data) :=
  C5_rule1_amended "test -f config/ && echo PASS" (by decide) (by decide)
    (by decide) (by decide) (by decide) (by decide) (by decide) (by decide)
    (by decide)

/-- Witness for C3 at a concrete dependency environment: `G-00` has an
OPEN record, `X-9` has no record at all. -/
theorem C3_dependency_gate_witness :
    (fun env deps =>
      finalCheckResults [] (unresolvedDeps env deps)
          = [] ++ [depCheckResult (unresolvedDeps env deps)] ∧
        (verifyAggregate [] (unresolvedDeps env deps)).allPassed = false)
      (fun d => if d = "G-00" then some (some ⟨some "OPEN"⟩) else none)
      ["G-00", "X-9"] := by
  have h := C3_dependency_gate []
    (fun d => if d = "G-00" then some (some ⟨some "OPEN"⟩) else none)
    ["G-00", "X-9"] (by decide)
  exact ⟨h.1, h.2.1⟩

end VerifyIssue
